import Mathlib

/-!
Verification of the biogeme indicator examples (nested-logit simulation,
elasticities, and confidence intervals).

The development shallowly embeds:
* the algebraic expression tree of `biogeme.expressions` (constants, named
  parameters, named per-row variables, arithmetic, comparisons, `exp`/`log`),
  evaluated over an arbitrary field with explicit `exp`/`log` interpretations
  (instantiated with `Real.exp`/`Real.log` for the analytic results);
* symbolic differentiation (the `Derive` operator of the spec, §4.1);
* the nested-logit probability builder `models.nested` (spec §4.2);
* the row-wise simulation runner and the quantile-based confidence-interval
  estimator `biogeme.confidenceIntervals` (spec §4.4), over ℚ;
* the aggregation formulas used by the example scripts
  `02nestedSimulation.py` and `03nestedElasticities.py`.

Machine floats are modelled by exact field arithmetic; division by zero is
total (`x / 0 = 0`) as in Mathlib.
-/

namespace Biogeme

/-- Expression tree of `biogeme.expressions`: tagged variant with constants,
named parameter references (`Beta`), named per-row variable references,
arithmetic operators, `exp`/`log`, and the comparison operators `==` / `!=`
used by the example scripts (which evaluate to 1 or 0). -/
inductive Expr (K : Type) where
  | const : K → Expr K
  | param : String → Expr K
  | var : String → Expr K
  | add : Expr K → Expr K → Expr K
  | sub : Expr K → Expr K → Expr K
  | mul : Expr K → Expr K → Expr K
  | div : Expr K → Expr K → Expr K
  | exp : Expr K → Expr K
  | log : Expr K → Expr K
  | eq : Expr K → Expr K → Expr K
  | neq : Expr K → Expr K → Expr K

variable {K : Type} [Field K] [DecidableEq K]

/-- Evaluation of an expression against a parameter binding `p` and a data
row `v` (spec §4.1 `evaluate(node, paramBinding, row)`).  The exponential and
logarithm are passed explicitly so the same definition serves both the
symbolic field ℚ and the reals. -/
def eval (fexp flog : K → K) (p v : String → K) : Expr K → K
  | Expr.const c => c
  | Expr.param s => p s
  | Expr.var s => v s
  | Expr.add a b => eval fexp flog p v a + eval fexp flog p v b
  | Expr.sub a b => eval fexp flog p v a - eval fexp flog p v b
  | Expr.mul a b => eval fexp flog p v a * eval fexp flog p v b
  | Expr.div a b => eval fexp flog p v a / eval fexp flog p v b
  | Expr.exp a => fexp (eval fexp flog p v a)
  | Expr.log a => flog (eval fexp flog p v a)
  | Expr.eq a b => if eval fexp flog p v a = eval fexp flog p v b then 1 else 0
  | Expr.neq a b => if eval fexp flog p v a = eval fexp flog p v b then 0 else 1

/-- Modelled from the spec: `differentiate(node, withRespectToVariableName)`
(§4.1), the engine behind the `Derive` operator of
`biogeme.expressions`, whose implementation is not part of the example
sources.  Sum/product/quotient rules, chain rule through `exp`/`log`, a
variable reference differentiates to 1 against its own name and 0 otherwise,
parameter references are differentiation-inert, and comparison/indicator
nodes differentiate to 0. -/
def differentiate (x : String) : Expr K → Expr K
  | Expr.const _ => Expr.const 0
  | Expr.param _ => Expr.const 0
  | Expr.var y => if y = x then Expr.const 1 else Expr.const 0
  | Expr.add a b => Expr.add (differentiate x a) (differentiate x b)
  | Expr.sub a b => Expr.sub (differentiate x a) (differentiate x b)
  | Expr.mul a b =>
      Expr.add (Expr.mul (differentiate x a) b) (Expr.mul a (differentiate x b))
  | Expr.div a b =>
      Expr.div
        (Expr.sub (Expr.mul (differentiate x a) b) (Expr.mul a (differentiate x b)))
        (Expr.mul b b)
  | Expr.exp a => Expr.mul (Expr.exp a) (differentiate x a)
  | Expr.log a => Expr.div (differentiate x a) a
  | Expr.eq _ _ => Expr.const 0
  | Expr.neq _ _ => Expr.const 0

/-- Whether the named variable occurs in an expression. -/
def occursVar (x : String) : Expr K → Bool
  | Expr.const _ => false
  | Expr.param _ => false
  | Expr.var y => y = x
  | Expr.add a b => occursVar x a || occursVar x b
  | Expr.sub a b => occursVar x a || occursVar x b
  | Expr.mul a b => occursVar x a || occursVar x b
  | Expr.div a b => occursVar x a || occursVar x b
  | Expr.exp a => occursVar x a
  | Expr.log a => occursVar x a
  | Expr.eq a b => occursVar x a || occursVar x b
  | Expr.neq a b => occursVar x a || occursVar x b

/-- Whether an expression contains any parameter reference. -/
def hasParam : Expr K → Bool
  | Expr.const _ => false
  | Expr.param _ => true
  | Expr.var _ => false
  | Expr.add a b => hasParam a || hasParam b
  | Expr.sub a b => hasParam a || hasParam b
  | Expr.mul a b => hasParam a || hasParam b
  | Expr.div a b => hasParam a || hasParam b
  | Expr.exp a => hasParam a
  | Expr.log a => hasParam a
  | Expr.eq a b => hasParam a || hasParam b
  | Expr.neq a b => hasParam a || hasParam b

/-! ## Quantiles and the confidence-interval estimator (spec §4.3–4.4)

The uncertainty propagator of `biogeme.confidenceIntervals` is not part of
the example sources, so it is modelled from the spec: for each draw the
simulation runner is rerun, the per-(row, column) values are stacked across
the `N` draws, and the lower/upper bounds are the `α/2` and `1 − α/2`
empirical quantiles with linear interpolation between order statistics.  The
draw tables carry exact rationals. -/

/-- The values of a (possibly unsorted) sample, sorted non-decreasingly. -/
def sortedOf (l : List ℚ) : List ℚ := List.insertionSort (· ≤ ·) l

/-- Linear interpolation between the order statistics of a sorted sample
at fractional index `h`: with `i = ⌊h⌋`, the value is
`s i + (h − i) · (s (i+1) − s i)`, clamped to the last order statistic. -/
def interpAt (s : List ℚ) (h : ℚ) : ℚ :=
  if (⌊h⌋.toNat) + 1 < s.length then
    s.getD ⌊h⌋.toNat 0
      + (h - (⌊h⌋.toNat : ℚ)) * (s.getD (⌊h⌋.toNat + 1) 0 - s.getD ⌊h⌋.toNat 0)
  else s.getD (s.length - 1) 0

/-- Modelled from the spec: the deterministic empirical quantile of a sample
at probability `p`, by linear interpolation between order statistics
(spec §4.4); the empty sample yields 0. -/
def quantile (l : List ℚ) (p : ℚ) : ℚ :=
  if l = [] then 0 else interpAt (sortedOf l) (p * ((l.length : ℚ) - 1))

/-- Row-wise simulation runner (spec §4.3 `run`): one table row per dataset
row, one entry per named output of the simulation spec. -/
def run (fexp flog : ℚ → ℚ) (spec : List (String × Expr ℚ))
    (p : String → ℚ) (rows : List (String → ℚ)) : List (List ℚ) :=
  rows.map (fun r => spec.map (fun o => eval fexp flog p r o.2))

/-- The (row, column) cell of a table, 0 outside the table. -/
def cellOf (tbl : List (List ℚ)) (r c : ℕ) : ℚ := (tbl.getD r []).getD c 0

/-- The cell's values across the draws: the `(r, c)` entry of each draw's
simulation table, in draw order. -/
def cellValues (fexp flog : ℚ → ℚ) (spec : List (String × Expr ℚ))
    (draws : List (String → ℚ)) (rows : List (String → ℚ)) (r c : ℕ) :
    List ℚ :=
  draws.map (fun d => cellOf (run fexp flog spec d rows) r c)

/-- Modelled from the spec: `biogeme.confidenceIntervals(draws, α)` (§4.4).
One simulation table per parameter draw; the lower (respectively upper)
bound table holds, per (row, output-column) cell, the `α/2` (respectively
`1 − α/2`) empirical quantile of that cell's values across the draws. -/
def confidenceIntervals (fexp flog : ℚ → ℚ) (spec : List (String × Expr ℚ))
    (draws : List (String → ℚ)) (rows : List (String → ℚ)) (α : ℚ) :
    List (List ℚ) × List (List ℚ) :=
  ((List.range rows.length).map (fun r =>
      (List.range spec.length).map (fun c =>
        quantile (cellValues fexp flog spec draws rows r c) (α / 2))),
   (List.range rows.length).map (fun r =>
      (List.range spec.length).map (fun c =>
        quantile (cellValues fexp flog spec draws rows r c) (1 - α / 2))))

/-! ## Aggregation formulas of the example scripts

The tail of `02nestedSimulation.py` forms a weighted product column on the
point table and on each bound table and reduces it by `mean` (market shares)
or `sum` (revenues); `03nestedElasticities.py` aggregates the disaggregate
elasticities with the weighted probabilities as weights. -/

/-- `02nestedSimulation.py:153-169`: the market share is the mean of the
column `weight · prob` (one entry per row of the table). -/
def marketShareOf (w P : List ℚ) : ℚ :=
  (List.zipWith (· * ·) w P).sum / ((List.zipWith (· * ·) w P).length : ℚ)

/-- `03nestedElasticities.py:160-168`: the aggregate elasticity divides each
row's `weight·prob·elasticity` by the total weighted probability and sums. -/
def aggElasOf (w P e : List ℚ) : ℚ :=
  ((List.zipWith (· * ·) (List.zipWith (· * ·) w P) e).map
    (fun t => t / (List.zipWith (· * ·) w P).sum)).sum

/-- Modelled from the spec: the `WeightedMean` reduction of §4.5,
`Σ weight·value / N` with `N` the number of rows. -/
def weightedMean (w v : List ℚ) : ℚ :=
  (List.zipWith (· * ·) w v).sum / (w.length : ℚ)

/-- `02nestedSimulation.py:242-248`: the left bound for the PT revenues is
computed from the LEFT BOUND TABLE itself — the per-row product of its
revenue column and its weight column, summed over the rows. -/
def revenuesLeft (fexp flog : ℚ → ℚ) (spec : List (String × Expr ℚ))
    (draws : List (String → ℚ)) (rows : List (String → ℚ)) (α : ℚ)
    (cRev cW : ℕ) : ℚ :=
  ((confidenceIntervals fexp flog spec draws rows α).1.map
    (fun row => row.getD cRev 0 * row.getD cW 0)).sum

/-- `02nestedSimulation.py:156-171`: the left bound for the car market share
is likewise the mean of `weight · prob` taken over the left bound table. -/
def marketShareLeft (fexp flog : ℚ → ℚ) (spec : List (String × Expr ℚ))
    (draws : List (String → ℚ)) (rows : List (String → ℚ)) (α : ℚ)
    (cP cW : ℕ) : ℚ :=
  marketShareOf
    ((confidenceIntervals fexp flog spec draws rows α).1.map (fun row => row.getD cW 0))
    ((confidenceIntervals fexp flog spec draws rows α).1.map (fun row => row.getD cP 0))

/-- The aggregate-then-bound alternative named by the spec (§4.5): reduce
each draw's table to the scalar `Σ_rows rev·weight`, then take the `α/2`
quantile across the `N` scalars. -/
def revenuesLeftAggFirst (fexp flog : ℚ → ℚ) (spec : List (String × Expr ℚ))
    (draws : List (String → ℚ)) (rows : List (String → ℚ)) (α : ℚ)
    (cRev cW : ℕ) : ℚ :=
  quantile
    (draws.map (fun d =>
      ((run fexp flog spec d rows).map
        (fun row => row.getD cRev 0 * row.getD cW 0)).sum))
    (α / 2)

/-! ## The nested-logit model of the indicator examples -/

/-- Modelled from the spec: the nest's log-sum base
`Σ_{j∈M_n} exp(μ_n · V_j)` (§4.2 step 1), built from expression-tree
primitives. -/
def logsumBase (mu : Expr K) (members : List ℕ) (V : ℕ → Expr K) : Expr K :=
  members.foldr (fun j acc => Expr.add (Expr.exp (Expr.mul mu (V j))) acc)
    (Expr.const 0)

/-- `S ^ (1/μ)` written with expression-tree primitives as
`exp(log S / μ)`. -/
def nestPow (mu S : Expr K) : Expr K := Expr.exp (Expr.div (Expr.log S) mu)

/-- Modelled from the spec: `models.nested(V, nests, i)` (§4.2), whose
implementation is not part of the example sources.  Returns the symbolic
probability
`exp(μ_n·V_i)/Σ_{j∈M_n} exp(μ_n·V_j) · (Σ_{j∈M_n} exp(μ_n·V_j))^{1/μ_n} /
Σ_k (Σ_{j∈M_k} exp(μ_k·V_j))^{1/μ_k}` for the nest `n` containing `i`;
`none` when no nest contains the target alternative. -/
def nestedProb (V : ℕ → Expr K) (nests : List (Expr K × List ℕ)) (i : ℕ) :
    Option (Expr K) :=
  (nests.find? (fun n => n.2.contains i)).map (fun n =>
    Expr.mul
      (Expr.div (Expr.exp (Expr.mul n.1 (V i))) (logsumBase n.1 n.2 V))
      (Expr.div (nestPow n.1 (logsumBase n.1 n.2 V))
        (nests.foldr
          (fun m acc => Expr.add (nestPow m.1 (logsumBase m.1 m.2 V)) acc)
          (Expr.const 0))))

/-- Modelled from the spec: the plain multinomial-logit probability formula
`exp(V_i) / Σ_j exp(V_j)` (§4.2 edge case and §8 cross-check). -/
def logitProb (V : ℕ → Expr K) (alts : List ℕ) (i : ℕ) : Expr K :=
  Expr.div (Expr.exp (V i))
    (alts.foldr (fun j acc => Expr.add (Expr.exp (V j)) acc) (Expr.const 0))

section Model02

/-! The concrete model shared by `02nestedSimulation.py`,
`03nestedElasticities.py` and `04nestedElasticities.py` (identical lines):
scaled variables, gender/occupation indicators, the three utilities, the
nest structure `CAR_NEST = (1.0, [1])`, `NO_CAR_NEST = (MU_NOCAR, [0, 2])`,
and the normalized weight. -/

variable (K)

/-- `TimePT_scaled = TimePT / 200`. -/
def TimePT_scaled : Expr K := Expr.div (Expr.var "TimePT") (Expr.const 200)

/-- `TimeCar_scaled = TimeCar / 200`. -/
def TimeCar_scaled : Expr K := Expr.div (Expr.var "TimeCar") (Expr.const 200)

/-- `MarginalCostPT_scaled = MarginalCostPT / 10`. -/
def MarginalCostPT_scaled : Expr K :=
  Expr.div (Expr.var "MarginalCostPT") (Expr.const 10)

/-- `CostCarCHF_scaled = CostCarCHF / 10`. -/
def CostCarCHF_scaled : Expr K :=
  Expr.div (Expr.var "CostCarCHF") (Expr.const 10)

/-- `distance_km_scaled = distance_km / 5`. -/
def distance_km_scaled : Expr K :=
  Expr.div (Expr.var "distance_km") (Expr.const 5)

/-- `male = Gender == 1`. -/
def male : Expr K := Expr.eq (Expr.var "Gender") (Expr.const 1)

/-- `female = Gender == 2`. -/
def female : Expr K := Expr.eq (Expr.var "Gender") (Expr.const 2)

/-- `unreportedGender = Gender == -1`. -/
def unreportedGender : Expr K := Expr.eq (Expr.var "Gender") (Expr.const (-1))

/-- `fulltime = OccupStat == 1`. -/
def fulltime : Expr K := Expr.eq (Expr.var "OccupStat") (Expr.const 1)

/-- `notfulltime = OccupStat != 1`. -/
def notfulltime : Expr K := Expr.neq (Expr.var "OccupStat") (Expr.const 1)

/-- `V_PT`, the public-transport utility of the indicator examples. -/
def V_PT : Expr K :=
  Expr.add
    (Expr.add
      (Expr.add (Expr.param "ASC_PT")
        (Expr.mul (Expr.mul (Expr.param "BETA_TIME_FULLTIME") (TimePT_scaled K))
          (fulltime K)))
      (Expr.mul (Expr.mul (Expr.param "BETA_TIME_OTHER") (TimePT_scaled K))
        (notfulltime K)))
    (Expr.mul (Expr.param "BETA_COST") (MarginalCostPT_scaled K))

/-- `V_CAR`, the car utility of the indicator examples. -/
def V_CAR : Expr K :=
  Expr.add
    (Expr.add
      (Expr.add (Expr.param "ASC_CAR")
        (Expr.mul (Expr.mul (Expr.param "BETA_TIME_FULLTIME") (TimeCar_scaled K))
          (fulltime K)))
      (Expr.mul (Expr.mul (Expr.param "BETA_TIME_OTHER") (TimeCar_scaled K))
        (notfulltime K)))
    (Expr.mul (Expr.param "BETA_COST") (CostCarCHF_scaled K))

/-- `V_SM`, the slow-modes utility of the indicator examples. -/
def V_SM : Expr K :=
  Expr.add
    (Expr.add
      (Expr.add (Expr.param "ASC_SM")
        (Expr.mul (Expr.mul (Expr.param "BETA_DIST_MALE") (distance_km_scaled K))
          (male K)))
      (Expr.mul (Expr.mul (Expr.param "BETA_DIST_FEMALE") (distance_km_scaled K))
        (female K)))
    (Expr.mul (Expr.param "BETA_DIST_UNREPORTED")
      (Expr.mul (distance_km_scaled K) (unreportedGender K)))

/-- `V = {0: V_PT, 1: V_CAR, 2: V_SM}`. -/
def VMap : ℕ → Expr K
  | 0 => V_PT K
  | 1 => V_CAR K
  | 2 => V_SM K
  | _ => Expr.const 0

/-- `nests = (CAR_NEST, NO_CAR_NEST)` with `CAR_NEST = (1.0, [1])` and
`NO_CAR_NEST = (MU_NOCAR, [0, 2])`. -/
def nests02 : List (Expr K × List ℕ) :=
  [(Expr.const 1, [1]), (Expr.param "MU_NOCAR", [0, 2])]

/-- `prob_pt = models.nested(V, None, nests, 0)`. -/
def prob_pt : Expr K := (nestedProb (VMap K) (nests02 K) 0).getD (Expr.const 0)

/-- `prob_car = models.nested(V, None, nests, 1)`. -/
def prob_car : Expr K := (nestedProb (VMap K) (nests02 K) 1).getD (Expr.const 0)

/-- `prob_sm = models.nested(V, None, nests, 2)`. -/
def prob_sm : Expr K := (nestedProb (VMap K) (nests02 K) 2).getD (Expr.const 0)

/-- The multinomial-logit cross-check probability for the car alternative
over the full alternative set `{0, 1, 2}`. -/
def logit_car : Expr K := logitProb (VMap K) [0, 1, 2] 1

/-- `normalizedWeight = Weight * numberOfRows / sumWeight`
(`02nestedSimulation.py:37-39`), with the number of rows and the total
weight already evaluated to scalars. -/
def normalizedWeightExpr (n s : K) : Expr K :=
  Expr.div (Expr.mul (Expr.var "Weight") (Expr.const n)) (Expr.const s)

end Model02

/-- Evaluation over the reals with the genuine exponential and logarithm. -/
noncomputable def evalR (p v : String → ℝ) (e : Expr ℝ) : ℝ := eval Real.exp Real.log p v e

/-- The total weight of a dataset (`database.data['Weight'].sum()`). -/
noncomputable def sumWeight (rows : List (String → ℝ)) : ℝ :=
  (rows.map (fun r => r "Weight")).sum

/-- The normalized-weight expression instantiated for a dataset:
`Weight * numberOfRows / sumWeight`. -/
noncomputable def weightExprOf (rows : List (String → ℝ)) : Expr ℝ :=
  normalizedWeightExpr ℝ (rows.length : ℝ) (sumWeight rows)

/-- The aggregate point market share for a probability expression: mean over
the dataset of `weight · prob` (`02nestedSimulation.py:153-169`). -/
noncomputable def marketShareR (p : String → ℝ) (rows : List (String → ℝ)) (prob : Expr ℝ) :
    ℝ :=
  (rows.map (fun r => evalR p r (weightExprOf rows) * evalR p r prob)).sum
    / (rows.length : ℝ)

/-! ## Helper lemmas -/

theorem getD_map_range {α : Type} (f : ℕ → α) {n r : ℕ} (hr : r < n) (d : α) :
    ((List.range n).map f).getD r d = f r := by
  rw [List.getD_eq_getElem _ _ (by simpa using hr)]
  simp

theorem run_cell (fexp flog : ℚ → ℚ) (spec : List (String × Expr ℚ))
    (p : String → ℚ) (rows : List (String → ℚ)) {r c : ℕ}
    (hr : r < rows.length) (hc : c < spec.length) :
    cellOf (run fexp flog spec p rows) r c =
      eval fexp flog p (rows.getD r (fun _ => 0))
        (spec.getD c ("", Expr.const 0)).2 := by
  have h1 : (run fexp flog spec p rows).getD r [] =
      spec.map (fun o => eval fexp flog p (rows.getD r (fun _ => 0)) o.2) := by
    unfold run
    rw [List.getD_eq_getElem _ _ (by simpa using hr), List.getElem_map,
      List.getD_eq_getElem _ _ hr]
  unfold cellOf
  rw [h1, List.getD_eq_getElem _ _ (by simpa using hc), List.getElem_map,
    List.getD_eq_getElem _ _ hc]

theorem ci_lower_cell (fexp flog : ℚ → ℚ) (spec : List (String × Expr ℚ))
    (draws : List (String → ℚ)) (rows : List (String → ℚ)) (α : ℚ)
    {r c : ℕ} (hr : r < rows.length) (hc : c < spec.length) :
    cellOf (confidenceIntervals fexp flog spec draws rows α).1 r c =
      quantile (cellValues fexp flog spec draws rows r c) (α / 2) := by
  unfold cellOf confidenceIntervals
  rw [show ((List.range rows.length).map fun r =>
        (List.range spec.length).map fun c =>
          quantile (cellValues fexp flog spec draws rows r c) (α / 2)).getD r [] =
      (List.range spec.length).map (fun c =>
        quantile (cellValues fexp flog spec draws rows r c) (α / 2)) from
    getD_map_range _ hr _]
  exact getD_map_range _ hc _

theorem ci_upper_cell (fexp flog : ℚ → ℚ) (spec : List (String × Expr ℚ))
    (draws : List (String → ℚ)) (rows : List (String → ℚ)) (α : ℚ)
    {r c : ℕ} (hr : r < rows.length) (hc : c < spec.length) :
    cellOf (confidenceIntervals fexp flog spec draws rows α).2 r c =
      quantile (cellValues fexp flog spec draws rows r c) (1 - α / 2) := by
  unfold cellOf confidenceIntervals
  rw [show ((List.range rows.length).map fun r =>
        (List.range spec.length).map fun c =>
          quantile (cellValues fexp flog spec draws rows r c) (1 - α / 2)).getD r [] =
      (List.range spec.length).map (fun c =>
        quantile (cellValues fexp flog spec draws rows r c) (1 - α / 2)) from
    getD_map_range _ hr _]
  exact getD_map_range _ hc _

theorem sortedOf_sorted (l : List ℚ) : List.Sorted (· ≤ ·) (sortedOf l) :=
  List.sorted_insertionSort _ l

theorem sortedOf_perm (l : List ℚ) : (sortedOf l).Perm l :=
  List.perm_insertionSort _ l

theorem sortedOf_length (l : List ℚ) : (sortedOf l).length = l.length :=
  (sortedOf_perm l).length_eq

theorem sorted_getD_mono {s : List ℚ} (hs : List.Sorted (· ≤ ·) s) {a b : ℕ}
    (hab : a ≤ b) (hb : b < s.length) : s.getD a 0 ≤ s.getD b 0 := by
  rcases eq_or_lt_of_le hab with rfl | h
  · exact le_refl _
  · rw [List.getD_eq_getElem _ _ (lt_of_le_of_lt hab hb),
      List.getD_eq_getElem _ _ hb]
    exact List.pairwise_iff_getElem.mp hs a b _ hb h

theorem quantile_of_all_eq {l : List ℚ} {c : ℚ} (hne : l ≠ [])
    (hall : ∀ x ∈ l, x = c) (p : ℚ) : quantile l p = c := by
  unfold quantile
  rw [if_neg hne]
  have hs : ∀ x ∈ sortedOf l, x = c := fun x hx =>
    hall x ((sortedOf_perm l).mem_iff.mp hx)
  have hlen : 0 < (sortedOf l).length := by
    rw [sortedOf_length]
    exact List.length_pos.mpr hne
  have hgetD : ∀ i : ℕ, i < (sortedOf l).length → (sortedOf l).getD i 0 = c := by
    intro i hi
    rw [List.getD_eq_getElem _ _ hi]
    exact hs _ (List.getElem_mem hi)
  unfold interpAt
  by_cases hbr : (⌊p * ((l.length : ℚ) - 1)⌋.toNat) + 1 < (sortedOf l).length
  · rw [if_pos hbr, hgetD _ hbr, hgetD _ (Nat.lt_of_succ_lt hbr)]
    ring
  · rw [if_neg hbr, hgetD _ (by omega)]

theorem interpAt_mono {s : List ℚ} (hs : List.Sorted (· ≤ ·) s) {h g : ℚ}
    (h0 : 0 ≤ h) (hhh : h ≤ g) : interpAt s h ≤ interpAt s g := by
  have h0g : 0 ≤ g := le_trans h0 hhh
  unfold interpAt
  set i := ⌊h⌋.toNat with hi_def
  set j := ⌊g⌋.toNat with hj_def
  have hij : i ≤ j := Int.toNat_le_toNat (Int.floor_mono hhh)
  have hfl : ((i : ℤ) : ℚ) = (⌊h⌋ : ℚ) := by
    rw [hi_def, Int.toNat_of_nonneg (Int.floor_nonneg.mpr h0)]
  have hflg : ((j : ℤ) : ℚ) = (⌊g⌋ : ℚ) := by
    rw [hj_def, Int.toNat_of_nonneg (Int.floor_nonneg.mpr h0g)]
  have hile : (i : ℚ) ≤ h := by
    rw [show ((i : ℕ) : ℚ) = ((i : ℤ) : ℚ) by push_cast; ring, hfl]
    exact Int.floor_le h
  have hilt : h < (i : ℚ) + 1 := by
    rw [show ((i : ℕ) : ℚ) = ((i : ℤ) : ℚ) by push_cast; ring, hfl]
    exact Int.lt_floor_add_one h
  have hjle : (j : ℚ) ≤ g := by
    rw [show ((j : ℕ) : ℚ) = ((j : ℤ) : ℚ) by push_cast; ring, hflg]
    exact Int.floor_le g
  by_cases hcg : j + 1 < s.length
  · have hc : i + 1 < s.length := by omega
    rw [if_pos hc, if_pos hcg]
    have slope : (0 : ℚ) ≤ s.getD (i + 1) 0 - s.getD i 0 :=
      sub_nonneg.mpr (sorted_getD_mono hs (Nat.le_succ i) hc)
    have slopeg : (0 : ℚ) ≤ s.getD (j + 1) 0 - s.getD j 0 :=
      sub_nonneg.mpr (sorted_getD_mono hs (Nat.le_succ j) hcg)
    rcases eq_or_lt_of_le hij with heq | hlt
    · rw [← heq] at hjle ⊢
      have : (h - i) * (s.getD (i + 1) 0 - s.getD i 0) ≤
          (g - i) * (s.getD (i + 1) 0 - s.getD i 0) :=
        mul_le_mul_of_nonneg_right (by linarith) slope
      linarith
    · have e1 : s.getD i 0 + (h - i) * (s.getD (i + 1) 0 - s.getD i 0) ≤
          s.getD (i + 1) 0 := by
        have : (h - i) * (s.getD (i + 1) 0 - s.getD i 0) ≤
            1 * (s.getD (i + 1) 0 - s.getD i 0) :=
          mul_le_mul_of_nonneg_right (by linarith) slope
        linarith
      have e2 : s.getD (i + 1) 0 ≤ s.getD j 0 :=
        sorted_getD_mono hs (by omega) (by omega)
      have e3 : s.getD j 0 ≤
          s.getD j 0 + (g - j) * (s.getD (j + 1) 0 - s.getD j 0) := by
        have : (0 : ℚ) ≤ (g - j) * (s.getD (j + 1) 0 - s.getD j 0) :=
          mul_nonneg (by linarith) slopeg
        linarith
      linarith
  · rw [if_neg hcg]
    by_cases hc : i + 1 < s.length
    · rw [if_pos hc]
      have slope : (0 : ℚ) ≤ s.getD (i + 1) 0 - s.getD i 0 :=
        sub_nonneg.mpr (sorted_getD_mono hs (Nat.le_succ i) hc)
      have e1 : s.getD i 0 + (h - i) * (s.getD (i + 1) 0 - s.getD i 0) ≤
          s.getD (i + 1) 0 := by
        have : (h - i) * (s.getD (i + 1) 0 - s.getD i 0) ≤
            1 * (s.getD (i + 1) 0 - s.getD i 0) :=
          mul_le_mul_of_nonneg_right (by linarith) slope
        linarith
      have e2 : s.getD (i + 1) 0 ≤ s.getD (s.length - 1) 0 :=
        sorted_getD_mono hs (by omega) (by omega)
      linarith
    · rw [if_neg hc]

theorem quantile_pair {a b p : ℚ} (hab : a ≤ b) (hp : 0 ≤ p) (hp1 : p < 1) :
    quantile [a, b] p = a + p * (b - a) := by
  have hsort : sortedOf [a, b] = [a, b] := by
    simp only [sortedOf, List.insertionSort, List.orderedInsert]
    rw [if_pos hab]
  have hfl : ⌊p * (((
      [a, b] : List ℚ).length : ℚ) - 1)⌋ = 0 := by
    simp only [List.length_cons, List.length_nil]
    rw [show ((2 : ℕ) : ℚ) - 1 = 1 by norm_num, mul_one]
    exact Int.floor_eq_zero_iff.mpr ⟨hp, hp1⟩
  unfold quantile interpAt
  rw [if_neg (by simp : ([a, b] : List ℚ) ≠ []), hfl]
  simp only [Int.toNat_zero, hsort, List.length_cons, List.length_nil]
  rw [if_pos (by norm_num)]
  rw [show (([a, b] : List ℚ)).getD 0 0 = a from rfl,
    show (([a, b] : List ℚ)).getD (0 + 1) 0 = b from rfl]
  push_cast
  ring

theorem eval_of_hasParam_false (fexp flog : K → K) {e : Expr K}
    (he : hasParam e = false) (p q v : String → K) :
    eval fexp flog p v e = eval fexp flog q v e := by
  induction e with
  | const c => rfl
  | param s => simp [hasParam] at he
  | var s => rfl
  | add a b iha ihb =>
      simp only [hasParam, Bool.or_eq_false_iff] at he
      simp only [eval, iha he.1, ihb he.2]
  | sub a b iha ihb =>
      simp only [hasParam, Bool.or_eq_false_iff] at he
      simp only [eval, iha he.1, ihb he.2]
  | mul a b iha ihb =>
      simp only [hasParam, Bool.or_eq_false_iff] at he
      simp only [eval, iha he.1, ihb he.2]
  | div a b iha ihb =>
      simp only [hasParam, Bool.or_eq_false_iff] at he
      simp only [eval, iha he.1, ihb he.2]
  | exp a iha =>
      simp only [hasParam] at he
      simp only [eval, iha he]
  | log a iha =>
      simp only [hasParam] at he
      simp only [eval, iha he]
  | eq a b iha ihb =>
      simp only [hasParam, Bool.or_eq_false_iff] at he
      simp only [eval, iha he.1, ihb he.2]
  | neq a b iha ihb =>
      simp only [hasParam, Bool.or_eq_false_iff] at he
      simp only [eval, iha he.1, ihb he.2]

theorem eval_differentiate_of_not_occurs (fexp flog : K → K) {x : String}
    {e : Expr K} (ho : occursVar x e = false) (p v : String → K) :
    eval fexp flog p v (differentiate x e) = 0 := by
  induction e with
  | const c => rfl
  | param s => rfl
  | var s =>
      simp only [occursVar, decide_eq_false_iff_not] at ho
      simp only [differentiate, if_neg ho, eval]
  | add a b iha ihb =>
      simp only [occursVar, Bool.or_eq_false_iff] at ho
      simp only [differentiate, eval, iha ho.1, ihb ho.2, add_zero]
  | sub a b iha ihb =>
      simp only [occursVar, Bool.or_eq_false_iff] at ho
      simp only [differentiate, eval, iha ho.1, ihb ho.2, sub_zero]
  | mul a b iha ihb =>
      simp only [occursVar, Bool.or_eq_false_iff] at ho
      simp only [differentiate, eval, iha ho.1, ihb ho.2, zero_mul, mul_zero,
        add_zero]
  | div a b iha ihb =>
      simp only [occursVar, Bool.or_eq_false_iff] at ho
      simp only [differentiate, eval, iha ho.1, ihb ho.2, zero_mul, mul_zero,
        sub_zero, zero_div]
  | exp a iha =>
      simp only [occursVar] at ho
      simp only [differentiate, eval, iha ho, mul_zero]
  | log a iha =>
      simp only [occursVar] at ho
      simp only [differentiate, eval, iha ho, zero_div]
  | eq a b iha ihb => rfl
  | neq a b iha ihb => rfl

theorem quantile_mono (l : List ℚ) {p q : ℚ} (hp : 0 ≤ p) (hpq : p ≤ q) :
    quantile l p ≤ quantile l q := by
  unfold quantile
  by_cases hl : l = []
  · rw [if_pos hl, if_pos hl]
  · rw [if_neg hl, if_neg hl]
    have hn : 1 ≤ l.length := List.length_pos.mpr hl
    have hn1 : (0 : ℚ) ≤ (l.length : ℚ) - 1 := by
      have : (1 : ℚ) ≤ (l.length : ℚ) := by exact_mod_cast hn
      linarith
    exact interpAt_mono (sortedOf_sorted l)
      (mul_nonneg hp hn1) (mul_le_mul_of_nonneg_right hpq hn1)

theorem nestedProb_two_nests_sum (p v : String → ℝ) (V : ℕ → Expr ℝ)
    (m1 m2 : Expr ℝ) :
    evalR p v ((nestedProb V [(m1, [1]), (m2, [0, 2])] 0).getD (Expr.const 0))
      + evalR p v ((nestedProb V [(m1, [1]), (m2, [0, 2])] 1).getD (Expr.const 0))
      + evalR p v ((nestedProb V [(m1, [1]), (m2, [0, 2])] 2).getD (Expr.const 0))
      = 1 := by
  have e0 : (nestedProb V [(m1, [1]), (m2, [0, 2])] 0).getD (Expr.const 0) =
      Expr.mul
        (Expr.div (Expr.exp (Expr.mul m2 (V 0))) (logsumBase m2 [0, 2] V))
        (Expr.div (nestPow m2 (logsumBase m2 [0, 2] V))
          (Expr.add (nestPow m1 (logsumBase m1 [1] V))
            (Expr.add (nestPow m2 (logsumBase m2 [0, 2] V)) (Expr.const 0)))) :=
    rfl
  have e1 : (nestedProb V [(m1, [1]), (m2, [0, 2])] 1).getD (Expr.const 0) =
      Expr.mul
        (Expr.div (Expr.exp (Expr.mul m1 (V 1))) (logsumBase m1 [1] V))
        (Expr.div (nestPow m1 (logsumBase m1 [1] V))
          (Expr.add (nestPow m1 (logsumBase m1 [1] V))
            (Expr.add (nestPow m2 (logsumBase m2 [0, 2] V)) (Expr.const 0)))) :=
    rfl
  have e2 : (nestedProb V [(m1, [1]), (m2, [0, 2])] 2).getD (Expr.const 0) =
      Expr.mul
        (Expr.div (Expr.exp (Expr.mul m2 (V 2))) (logsumBase m2 [0, 2] V))
        (Expr.div (nestPow m2 (logsumBase m2 [0, 2] V))
          (Expr.add (nestPow m1 (logsumBase m1 [1] V))
            (Expr.add (nestPow m2 (logsumBase m2 [0, 2] V)) (Expr.const 0)))) :=
    rfl
  rw [e0, e1, e2]
  simp only [evalR, eval, logsumBase, nestPow, List.foldr]
  set u0 := eval Real.exp Real.log p v (V 0)
  set u1 := eval Real.exp Real.log p v (V 1)
  set u2 := eval Real.exp Real.log p v (V 2)
  set w1 := eval Real.exp Real.log p v m1
  set w2 := eval Real.exp Real.log p v m2
  have hS1 : (0 : ℝ) < Real.exp (w1 * u1) + 0 := by positivity
  have hS2 : (0 : ℝ) < Real.exp (w2 * u0) + (Real.exp (w2 * u2) + 0) := by
    positivity
  have hA : (0 : ℝ) <
      Real.exp (Real.log (Real.exp (w1 * u1) + 0) / w1) := Real.exp_pos _
  have hB : (0 : ℝ) <
      Real.exp (Real.log (Real.exp (w2 * u0) + (Real.exp (w2 * u2) + 0)) / w2) :=
    Real.exp_pos _
  have hD : (0 : ℝ) <
      Real.exp (Real.log (Real.exp (w1 * u1) + 0) / w1) +
        (Real.exp (Real.log (Real.exp (w2 * u0) + (Real.exp (w2 * u2) + 0)) / w2)
          + 0) := by positivity
  field_simp
  ring

theorem evalR_prob_car (p v : String → ℝ) :
    evalR p v (prob_car ℝ) =
      (Real.exp (1 * evalR p v (V_CAR ℝ)) /
          (Real.exp (1 * evalR p v (V_CAR ℝ)) + 0)) *
        (Real.exp (Real.log (Real.exp (1 * evalR p v (V_CAR ℝ)) + 0) / 1) /
          (Real.exp (Real.log (Real.exp (1 * evalR p v (V_CAR ℝ)) + 0) / 1) +
            (Real.exp
              (Real.log
                (Real.exp (p "MU_NOCAR" * evalR p v (V_PT ℝ)) +
                  (Real.exp (p "MU_NOCAR" * evalR p v (V_SM ℝ)) + 0)) /
                p "MU_NOCAR") + 0))) := by
  have eCar : prob_car ℝ =
      Expr.mul
        (Expr.div (Expr.exp (Expr.mul (Expr.const 1) (V_CAR ℝ)))
          (logsumBase (Expr.const 1) [1] (VMap ℝ)))
        (Expr.div
          (nestPow (Expr.const 1) (logsumBase (Expr.const 1) [1] (VMap ℝ)))
          (Expr.add
            (nestPow (Expr.const 1) (logsumBase (Expr.const 1) [1] (VMap ℝ)))
            (Expr.add
              (nestPow (Expr.param "MU_NOCAR")
                (logsumBase (Expr.param "MU_NOCAR") [0, 2] (VMap ℝ)))
              (Expr.const 0)))) := rfl
  rw [eCar]
  simp only [evalR, eval, logsumBase, nestPow, List.foldr]

theorem evalR_logit_car (p v : String → ℝ) :
    evalR p v (logit_car ℝ) =
      Real.exp (evalR p v (V_CAR ℝ)) /
        (Real.exp (evalR p v (V_PT ℝ)) +
          (Real.exp (evalR p v (V_CAR ℝ)) +
            (Real.exp (evalR p v (V_SM ℝ)) + 0))) := by
  have eLogit : logit_car ℝ =
      Expr.div (Expr.exp (V_CAR ℝ))
        (Expr.add (Expr.exp (V_PT ℝ))
          (Expr.add (Expr.exp (V_CAR ℝ))
            (Expr.add (Expr.exp (V_SM ℝ)) (Expr.const 0)))) := rfl
  rw [eLogit]
  simp only [evalR, eval]

theorem evalR_V_PT_zero (p v : String → ℝ) (hv : ∀ s, v s = 0)
    (hp : ∀ s, s ≠ "MU_NOCAR" → p s = 0) : evalR p v (V_PT ℝ) = 0 := by
  simp only [evalR, eval, V_PT, TimePT_scaled, MarginalCostPT_scaled, fulltime,
    notfulltime, hv, hp _ (by decide : ("ASC_PT" : String) ≠ "MU_NOCAR"),
    hp _ (by decide : ("BETA_TIME_FULLTIME" : String) ≠ "MU_NOCAR"),
    hp _ (by decide : ("BETA_TIME_OTHER" : String) ≠ "MU_NOCAR"),
    hp _ (by decide : ("BETA_COST" : String) ≠ "MU_NOCAR")]
  norm_num

theorem evalR_V_CAR_zero (p v : String → ℝ) (hv : ∀ s, v s = 0)
    (hp : ∀ s, s ≠ "MU_NOCAR" → p s = 0) : evalR p v (V_CAR ℝ) = 0 := by
  simp only [evalR, eval, V_CAR, TimeCar_scaled, CostCarCHF_scaled, fulltime,
    notfulltime, hv, hp _ (by decide : ("ASC_CAR" : String) ≠ "MU_NOCAR"),
    hp _ (by decide : ("BETA_TIME_FULLTIME" : String) ≠ "MU_NOCAR"),
    hp _ (by decide : ("BETA_TIME_OTHER" : String) ≠ "MU_NOCAR"),
    hp _ (by decide : ("BETA_COST" : String) ≠ "MU_NOCAR")]
  norm_num

theorem evalR_V_SM_zero (p v : String → ℝ) (hv : ∀ s, v s = 0)
    (hp : ∀ s, s ≠ "MU_NOCAR" → p s = 0) : evalR p v (V_SM ℝ) = 0 := by
  simp only [evalR, eval, V_SM, distance_km_scaled, male, female,
    unreportedGender, hv, hp _ (by decide : ("ASC_SM" : String) ≠ "MU_NOCAR"),
    hp _ (by decide : ("BETA_DIST_MALE" : String) ≠ "MU_NOCAR"),
    hp _ (by decide : ("BETA_DIST_FEMALE" : String) ≠ "MU_NOCAR"),
    hp _ (by decide : ("BETA_DIST_UNREPORTED" : String) ≠ "MU_NOCAR")]
  norm_num

/-- Claim C4, counterexample: with the other nest's scale `MU_NOCAR` set to 2
(and all remaining parameters and variables 0), the nested-logit probability
of the single-member car nest (scale fixed at 1) is `1/(1+√2)`, not the
multinomial-logit value `1/3`; so the two do NOT agree for every parameter
binding. -/
theorem claim_C4_counterexample :
    evalR (fun s => if s = "MU_NOCAR" then 2 else 0) (fun _ => 0)
        (prob_car ℝ) ≠
      evalR (fun s => if s = "MU_NOCAR" then 2 else 0) (fun _ => 0)
        (logit_car ℝ) := by
  have hv : ∀ s : String, ((fun _ => 0 : String → ℝ)) s = 0 := fun _ => rfl
  have hp : ∀ s, s ≠ "MU_NOCAR" →
      (fun s => if s = "MU_NOCAR" then (2 : ℝ) else 0) s = 0 := by
    intro s hs
    simp [hs]
  have hmu : (fun s => if s = "MU_NOCAR" then (2 : ℝ) else 0) "MU_NOCAR" = 2 :=
    by simp
  have h0 := evalR_V_PT_zero _ _ hv hp
  have h1 := evalR_V_CAR_zero _ _ hv hp
  have h2 := evalR_V_SM_zero _ _ hv hp
  have lhs_eq : evalR (fun s => if s = "MU_NOCAR" then 2 else 0) (fun _ => 0)
      (prob_car ℝ) = 1 / (1 + Real.exp (Real.log 2 / 2)) := by
    rw [evalR_prob_car, h0, h1, h2]
    norm_num [Real.exp_zero, Real.log_one]
  have rhs_eq : evalR (fun s => if s = "MU_NOCAR" then 2 else 0) (fun _ => 0)
      (logit_car ℝ) = 1 / 3 := by
    rw [evalR_logit_car, h0, h1, h2]
    norm_num [Real.exp_zero]
  rw [lhs_eq, rhs_eq]
  have hx : Real.exp (Real.log 2 / 2) * Real.exp (Real.log 2 / 2) = 2 := by
    rw [← Real.exp_add,
      show Real.log 2 / 2 + Real.log 2 / 2 = Real.log 2 by ring]
    exact Real.exp_log (by norm_num)
  have hxne : Real.exp (Real.log 2 / 2) ≠ 2 := by
    intro h
    rw [h] at hx
    norm_num at hx
  have hpos : (0 : ℝ) < 1 + Real.exp (Real.log 2 / 2) := by positivity
  intro heq
  rw [div_eq_div_iff (ne_of_gt hpos) (by norm_num : (3 : ℝ) ≠ 0)] at heq
  exact hxne (by linarith)

/-- Claim C4 (amended): the nested-logit probability expression built for
the single-member car nest with scale fixed at 1 evaluates to the plain
multinomial-logit probability over the full alternative set for every row
and every parameter binding in which the other nest's scale `MU_NOCAR`
equals 1 (as the counterexample shows, agreement fails when `MU_NOCAR ≠ 1`,
so agreement holds on exactly the bindings where every nest scale is 1). -/
theorem claim_C4 (p v : String → ℝ) (hmu : p "MU_NOCAR" = 1) :
    evalR p v (prob_car ℝ) = evalR p v (logit_car ℝ) := by
  rw [evalR_prob_car, evalR_logit_car, hmu]
  simp only [one_mul, add_zero, div_one, Real.log_exp]
  rw [Real.exp_log (by positivity :
      (0 : ℝ) < Real.exp (evalR p v (V_PT ℝ)) + Real.exp (evalR p v (V_SM ℝ))),
    div_self (ne_of_gt (Real.exp_pos (evalR p v (V_CAR ℝ)))), one_mul]
  rw [show Real.exp (evalR p v (V_CAR ℝ)) +
      (Real.exp (evalR p v (V_PT ℝ)) + Real.exp (evalR p v (V_SM ℝ))) =
      Real.exp (evalR p v (V_PT ℝ)) +
        (Real.exp (evalR p v (V_CAR ℝ)) + Real.exp (evalR p v (V_SM ℝ))) by ring]

/-- Witness for C4: at the binding where every parameter equals 1 (so
`MU_NOCAR = 1`) and every variable is 0, the amended theorem applies. -/
theorem claim_C4_witness :
    ((fun _ => (1 : ℝ)) "MU_NOCAR" = 1) ∧
      evalR (fun _ => (1 : ℝ)) (fun _ => (0 : ℝ)) (prob_car ℝ) =
        evalR (fun _ => (1 : ℝ)) (fun _ => (0 : ℝ)) (logit_car ℝ) :=
  ⟨rfl, claim_C4 _ _ rfl⟩

/-- Claim C2: for every row and every parameter binding, the three
nested-logit probabilities (`prob_pt`, `prob_car`, `prob_sm` of
`02nestedSimulation.py`) sum to 1 within 1e-9 (they sum to exactly 1), and
for every dataset with nonzero total weight the weighted-mean aggregated
point market shares of the three alternatives sum to 1 within 1e-6. -/
theorem claim_C2 (p : String → ℝ) (rows : List (String → ℝ))
    (hrows : rows ≠ []) (hsw : sumWeight rows ≠ 0) :
    (∀ v : String → ℝ,
        |evalR p v (prob_pt ℝ) + evalR p v (prob_car ℝ)
            + evalR p v (prob_sm ℝ) - 1| ≤ 1 / 1000000000)
      ∧ |marketShareR p rows (prob_pt ℝ) + marketShareR p rows (prob_car ℝ)
            + marketShareR p rows (prob_sm ℝ) - 1| ≤ 1 / 1000000 := by
  have hsum : ∀ v : String → ℝ,
      evalR p v (prob_pt ℝ) + evalR p v (prob_car ℝ) + evalR p v (prob_sm ℝ)
        = 1 := fun v =>
    nestedProb_two_nests_sum p v (VMap ℝ) (Expr.const 1)
      (Expr.param "MU_NOCAR")
  constructor
  · intro v
    rw [hsum v]
    norm_num
  · have hN : (0 : ℝ) < (rows.length : ℝ) := by
      have := List.length_pos.mpr hrows
      exact_mod_cast this
    have hw : ∀ r : String → ℝ, evalR p r (weightExprOf rows) =
        r "Weight" * ((rows.length : ℝ) / sumWeight rows) := by
      intro r
      simp only [evalR, eval, weightExprOf, normalizedWeightExpr]
      rw [mul_div_assoc]
    have hms : marketShareR p rows (prob_pt ℝ) + marketShareR p rows (prob_car ℝ)
        + marketShareR p rows (prob_sm ℝ) = 1 := by
      unfold marketShareR
      rw [div_add_div_same, div_add_div_same, ← List.sum_map_add,
        ← List.sum_map_add]
      rw [show rows.map (fun r =>
            evalR p r (weightExprOf rows) * evalR p r (prob_pt ℝ) +
              evalR p r (weightExprOf rows) * evalR p r (prob_car ℝ) +
              evalR p r (weightExprOf rows) * evalR p r (prob_sm ℝ)) =
          rows.map (fun r =>
            r "Weight" * ((rows.length : ℝ) / sumWeight rows)) from
        List.map_congr_left (by
          intro r hr
          have hw1 := hw r
          have hp1 := hsum r
          calc evalR p r (weightExprOf rows) * evalR p r (prob_pt ℝ) +
                evalR p r (weightExprOf rows) * evalR p r (prob_car ℝ) +
                evalR p r (weightExprOf rows) * evalR p r (prob_sm ℝ)
              = evalR p r (weightExprOf rows) *
                  (evalR p r (prob_pt ℝ) + evalR p r (prob_car ℝ) +
                    evalR p r (prob_sm ℝ)) := by ring
            _ = evalR p r (weightExprOf rows) := by rw [hp1, mul_one]
            _ = r "Weight" * ((rows.length : ℝ) / sumWeight rows) := hw1)]
      rw [List.sum_map_mul_right,
        show (rows.map (fun r => r "Weight")).sum = sumWeight rows from rfl]
      field_simp
    rw [hms]
    norm_num

/-- Witness for C2: a one-row dataset with unit weight satisfies both
hypotheses, and the conclusion holds there. -/
theorem claim_C2_witness :
    (([(fun _ => 1 : String → ℝ)] : List (String → ℝ)) ≠ [])
      ∧ sumWeight [(fun _ => 1 : String → ℝ)] ≠ 0
      ∧ ((∀ v : String → ℝ,
          |evalR (fun _ => 1) v (prob_pt ℝ) + evalR (fun _ => 1) v (prob_car ℝ)
              + evalR (fun _ => 1) v (prob_sm ℝ) - 1| ≤ 1 / 1000000000)
        ∧ |marketShareR (fun _ => 1) [(fun _ => 1 : String → ℝ)] (prob_pt ℝ)
              + marketShareR (fun _ => 1) [(fun _ => 1 : String → ℝ)] (prob_car ℝ)
              + marketShareR (fun _ => 1) [(fun _ => 1 : String → ℝ)] (prob_sm ℝ)
              - 1| ≤ 1 / 1000000) :=
  ⟨by simp, by norm_num [sumWeight],
    claim_C2 (fun _ => 1) [(fun _ => 1 : String → ℝ)] (by simp)
      (by norm_num [sumWeight])⟩

/-- Claim C5: differentiating a variable reference with respect to its own
name yields the constant 1, with respect to any other name the constant 0;
a parameter reference always differentiates to the constant 0; and the
derivative of any expression in which the named variable does not occur
evaluates to 0 at every parameter binding and every row. -/
theorem claim_C5 (x y s : String) (e : Expr ℝ) :
    differentiate (K := ℝ) x (Expr.var x) = Expr.const 1
      ∧ (y ≠ x → differentiate (K := ℝ) x (Expr.var y) = Expr.const 0)
      ∧ differentiate (K := ℝ) x (Expr.param s) = Expr.const 0
      ∧ (occursVar x e = false → ∀ p v : String → ℝ,
          evalR p v (differentiate x e) = 0) := by
  refine ⟨?_, ?_, rfl, ?_⟩
  · simp [differentiate]
  · intro hyx
    simp [differentiate, hyx]
  · intro ho p v
    exact eval_differentiate_of_not_occurs _ _ ho p v

/-- Witness for C5: variables "a" ≠ "b", parameter "c", and the expression
`exp(c · b)`, in which "a" does not occur. -/
theorem claim_C5_witness :
    (("b" : String) ≠ "a")
      ∧ occursVar "a"
          (Expr.exp (Expr.mul (Expr.param "c") (Expr.var "b")) : Expr ℝ) = false
      ∧ differentiate (K := ℝ) "a" (Expr.var "a") = Expr.const 1
      ∧ differentiate (K := ℝ) "a" (Expr.var "b") = Expr.const 0
      ∧ differentiate (K := ℝ) "a" (Expr.param "c") = Expr.const 0
      ∧ evalR (fun _ => 0) (fun _ => 0)
          (differentiate "a"
            (Expr.exp (Expr.mul (Expr.param "c") (Expr.var "b")))) = 0 :=
  ⟨by decide, by decide,
    (claim_C5 "a" "b" "c" (Expr.exp (Expr.mul (Expr.param "c") (Expr.var "b")))).1,
    (claim_C5 "a" "b" "c" (Expr.exp (Expr.mul (Expr.param "c") (Expr.var "b")))).2.1
      (by decide),
    (claim_C5 "a" "b" "c" (Expr.exp (Expr.mul (Expr.param "c") (Expr.var "b")))).2.2.1,
    (claim_C5 "a" "b" "c" (Expr.exp (Expr.mul (Expr.param "c") (Expr.var "b")))).2.2.2
      (by decide) (fun _ => 0) (fun _ => 0)⟩

/-- Claim C1: for every confidence level α in (0,1) and non-empty draw set,
the (row, column) cell of the lower (respectively upper) bound table
produced by the confidence-interval estimator is the `α/2` (respectively
`1 − α/2`) empirical quantile of that cell's values across the N draws
(for α = 0.9, the 0.45 and 0.55 quantiles). -/
theorem claim_C1 (fexp flog : ℚ → ℚ) (spec : List (String × Expr ℚ))
    (draws rows : List (String → ℚ)) (α : ℚ) (r c : ℕ)
    (hα0 : 0 < α) (hα1 : α < 1) (hd : draws ≠ []) (hr : r < rows.length)
    (hc : c < spec.length) :
    cellOf (confidenceIntervals fexp flog spec draws rows α).1 r c =
        quantile (draws.map (fun d =>
          eval fexp flog d (rows.getD r (fun _ => 0))
            (spec.getD c ("", Expr.const 0)).2)) (α / 2)
      ∧ cellOf (confidenceIntervals fexp flog spec draws rows α).2 r c =
        quantile (draws.map (fun d =>
          eval fexp flog d (rows.getD r (fun _ => 0))
            (spec.getD c ("", Expr.const 0)).2)) (1 - α / 2) := by
  have hcv : cellValues fexp flog spec draws rows r c =
      draws.map (fun d =>
        eval fexp flog d (rows.getD r (fun _ => 0))
          (spec.getD c ("", Expr.const 0)).2) := by
    unfold cellValues
    exact List.map_congr_left
      (fun d _ => run_cell fexp flog spec d rows hr hc)
  exact ⟨by rw [ci_lower_cell fexp flog spec draws rows α hr hc, hcv],
    by rw [ci_upper_cell fexp flog spec draws rows α hr hc, hcv]⟩

/-- Witness for C1: a one-output simulation spec, two draws, one row, and
α = 0.9. -/
theorem claim_C1_witness :
    (0 < (9 : ℚ) / 10) ∧ ((9 : ℚ) / 10 < 1)
      ∧ (([fun _ => 1, fun _ => 2] : List (String → ℚ)) ≠ [])
      ∧ (0 < ([fun _ => 3] : List (String → ℚ)).length)
      ∧ (0 < ([("o", Expr.var "x")] : List (String × Expr ℚ)).length)
      ∧ (cellOf (confidenceIntervals (fun x => x) (fun x => x)
            [("o", Expr.var "x")] [fun _ => 1, fun _ => 2] [fun _ => 3]
            (9 / 10)).1 0 0 =
          quantile (([fun _ => 1, fun _ => 2] : List (String → ℚ)).map
            (fun d => eval (fun x => x) (fun x => x) d
              (([fun _ => 3] : List (String → ℚ)).getD 0 (fun _ => 0))
              (([("o", Expr.var "x")] : List (String × Expr ℚ)).getD 0
                ("", Expr.const 0)).2)) (9 / 10 / 2)
        ∧ cellOf (confidenceIntervals (fun x => x) (fun x => x)
            [("o", Expr.var "x")] [fun _ => 1, fun _ => 2] [fun _ => 3]
            (9 / 10)).2 0 0 =
          quantile (([fun _ => 1, fun _ => 2] : List (String → ℚ)).map
            (fun d => eval (fun x => x) (fun x => x) d
              (([fun _ => 3] : List (String → ℚ)).getD 0 (fun _ => 0))
              (([("o", Expr.var "x")] : List (String × Expr ℚ)).getD 0
                ("", Expr.const 0)).2)) (1 - 9 / 10 / 2)) :=
  ⟨by norm_num, by norm_num, by simp, by simp, by simp,
    claim_C1 (fun x => x) (fun x => x) [("o", Expr.var "x")]
      [fun _ => 1, fun _ => 2] [fun _ => 3] (9 / 10) 0 0 (by norm_num)
      (by norm_num) (by simp) (by simp) (by simp)⟩

/-- Claim C6, counterexample: with a point estimate placing the output at 0
and 20 draws all placing it at 1, the lower bound (the 0.45 quantile of
twenty 1s, namely 1) exceeds the point value, so `lower ≤ point` fails. -/
theorem claim_C6_counterexample :
    ¬ (cellOf (confidenceIntervals (fun x => x) (fun x => x)
          [("o", Expr.param "b")] (List.replicate 20 (fun _ => 1))
          [fun _ => 0] (9 / 10)).1 0 0
        ≤ cellOf (run (fun x => x) (fun x => x) [("o", Expr.param "b")]
          (fun _ => 0) [fun _ => 0]) 0 0) := by
  have hpoint : cellOf (run (fun x => x) (fun x => x) [("o", Expr.param "b")]
      (fun _ => 0) [fun _ => 0]) 0 0 = 0 := rfl
  have hlow : cellOf (confidenceIntervals (fun x => x) (fun x => x)
      [("o", Expr.param "b")] (List.replicate 20 (fun _ => 1))
      [fun _ => 0] (9 / 10)).1 0 0 = 1 := by
    rw [ci_lower_cell (fun x => x) (fun x => x) [("o", Expr.param "b")]
      (List.replicate 20 (fun _ => 1)) [fun _ => 0] (9 / 10)
      (by simp) (by simp)]
    have hcv : cellValues (fun x => x) (fun x => x) [("o", Expr.param "b")]
        (List.replicate 20 (fun _ => 1)) [fun _ => 0] 0 0 =
        List.replicate 20 1 := by
      unfold cellValues
      rw [List.map_replicate]
      rfl
    rw [hcv]
    exact quantile_of_all_eq (by simp)
      (fun x hx => (List.eq_of_mem_replicate hx)) _
  rw [hpoint, hlow]
  norm_num

/-- Claim C6 (amended): for every output, every confidence level in (0,1),
and every draw set with N ≥ 20 draws, the computed lower bound is ≤ the
computed upper bound (the point estimate itself need not lie between the
bounds, as the counterexample shows). -/
theorem claim_C6 (fexp flog : ℚ → ℚ) (spec : List (String × Expr ℚ))
    (draws rows : List (String → ℚ)) (α : ℚ) (r c : ℕ)
    (hα0 : 0 < α) (hα1 : α < 1) (hN : 20 ≤ draws.length)
    (hr : r < rows.length) (hc : c < spec.length) :
    cellOf (confidenceIntervals fexp flog spec draws rows α).1 r c ≤
      cellOf (confidenceIntervals fexp flog spec draws rows α).2 r c := by
  rw [ci_lower_cell fexp flog spec draws rows α hr hc,
    ci_upper_cell fexp flog spec draws rows α hr hc]
  exact quantile_mono _ (by linarith) (by linarith)

/-- Witness for C6: 20 identical draws, one output, one row, α = 0.9. -/
theorem claim_C6_witness :
    (0 < (9 : ℚ) / 10) ∧ ((9 : ℚ) / 10 < 1)
      ∧ (20 ≤ (List.replicate 20 (fun _ => 1) : List (String → ℚ)).length)
      ∧ (0 < ([fun _ => 0] : List (String → ℚ)).length)
      ∧ (0 < ([("o", Expr.param "b")] : List (String × Expr ℚ)).length)
      ∧ cellOf (confidenceIntervals (fun x => x) (fun x => x)
          [("o", Expr.param "b")] (List.replicate 20 (fun _ => 1))
          [fun _ => 0] (9 / 10)).1 0 0 ≤
        cellOf (confidenceIntervals (fun x => x) (fun x => x)
          [("o", Expr.param "b")] (List.replicate 20 (fun _ => 1))
          [fun _ => 0] (9 / 10)).2 0 0 :=
  ⟨by norm_num, by norm_num, by simp, by simp, by simp,
    claim_C6 (fun x => x) (fun x => x) [("o", Expr.param "b")]
      (List.replicate 20 (fun _ => 1)) [fun _ => 0] (9 / 10) 0 0
      (by norm_num) (by norm_num) (by simp) (by simp) (by simp)⟩

/-- Claim C7, counterexample: with draws placing one output at 0 and 1, the
interval at confidence level 0.9 (the 0.45 and 0.55 quantiles, width 0.1) is
strictly NARROWER than the interval at level 0.5 (the 0.25 and 0.75
quantiles, width 0.5), although 0.5 ≤ 0.9; interval width is not monotone
non-decreasing in the confidence level. -/
theorem claim_C7_counterexample :
    ((1 : ℚ) / 2 ≤ 9 / 10)
      ∧ (cellOf (confidenceIntervals (fun x => x) (fun x => x)
            [("o", Expr.param "b")] [fun _ => 0, fun _ => 1] [fun _ => 0]
            (9 / 10)).2 0 0
          - cellOf (confidenceIntervals (fun x => x) (fun x => x)
            [("o", Expr.param "b")] [fun _ => 0, fun _ => 1] [fun _ => 0]
            (9 / 10)).1 0 0
        < cellOf (confidenceIntervals (fun x => x) (fun x => x)
            [("o", Expr.param "b")] [fun _ => 0, fun _ => 1] [fun _ => 0]
            (1 / 2)).2 0 0
          - cellOf (confidenceIntervals (fun x => x) (fun x => x)
            [("o", Expr.param "b")] [fun _ => 0, fun _ => 1] [fun _ => 0]
            (1 / 2)).1 0 0) := by
  constructor
  · norm_num
  · have hcv : cellValues (fun x => x) (fun x => x) [("o", Expr.param "b")]
        [fun _ => 0, fun _ => 1] [fun _ => 0] 0 0 = [0, 1] := rfl
    rw [ci_lower_cell (fun x => x) (fun x => x) [("o", Expr.param "b")]
        [fun _ => 0, fun _ => 1] [fun _ => 0] (9 / 10) (by simp) (by simp),
      ci_upper_cell (fun x => x) (fun x => x) [("o", Expr.param "b")]
        [fun _ => 0, fun _ => 1] [fun _ => 0] (9 / 10) (by simp) (by simp),
      ci_lower_cell (fun x => x) (fun x => x) [("o", Expr.param "b")]
        [fun _ => 0, fun _ => 1] [fun _ => 0] (1 / 2) (by simp) (by simp),
      ci_upper_cell (fun x => x) (fun x => x) [("o", Expr.param "b")]
        [fun _ => 0, fun _ => 1] [fun _ => 0] (1 / 2) (by simp) (by simp),
      hcv]
    rw [quantile_pair (by norm_num : (0 : ℚ) ≤ 1) (by norm_num) (by norm_num),
      quantile_pair (by norm_num : (0 : ℚ) ≤ 1) (by norm_num) (by norm_num),
      quantile_pair (by norm_num : (0 : ℚ) ≤ 1) (by norm_num) (by norm_num),
      quantile_pair (by norm_num : (0 : ℚ) ≤ 1) (by norm_num) (by norm_num)]
    norm_num

/-- Claim C7 (amended): for every output and fixed draw set, if
`α1 ≤ α2` (both in (0,1)) then the interval at level α2 is at most as WIDE
as the interval at level α1: under the `α/2`, `1 − α/2` quantile rule the
quantile points move towards the median as α grows, so the width is
monotone non-increasing, not non-decreasing, in the confidence level. -/
theorem claim_C7 (fexp flog : ℚ → ℚ) (spec : List (String × Expr ℚ))
    (draws rows : List (String → ℚ)) (α1 α2 : ℚ) (r c : ℕ)
    (h10 : 0 < α1) (h11 : α1 < 1) (h20 : 0 < α2) (h21 : α2 < 1)
    (h12 : α1 ≤ α2) (hr : r < rows.length) (hc : c < spec.length) :
    cellOf (confidenceIntervals fexp flog spec draws rows α2).2 r c
        - cellOf (confidenceIntervals fexp flog spec draws rows α2).1 r c
      ≤ cellOf (confidenceIntervals fexp flog spec draws rows α1).2 r c
        - cellOf (confidenceIntervals fexp flog spec draws rows α1).1 r c := by
  rw [ci_lower_cell fexp flog spec draws rows α2 hr hc,
    ci_upper_cell fexp flog spec draws rows α2 hr hc,
    ci_lower_cell fexp flog spec draws rows α1 hr hc,
    ci_upper_cell fexp flog spec draws rows α1 hr hc]
  have h1 : quantile (cellValues fexp flog spec draws rows r c) (α1 / 2) ≤
      quantile (cellValues fexp flog spec draws rows r c) (α2 / 2) :=
    quantile_mono _ (by linarith) (by linarith)
  have h2 : quantile (cellValues fexp flog spec draws rows r c) (1 - α2 / 2) ≤
      quantile (cellValues fexp flog spec draws rows r c) (1 - α1 / 2) :=
    quantile_mono _ (by linarith) (by linarith)
  linarith

/-- Witness for C7: levels 0.5 ≤ 0.9, two draws, one output, one row. -/
theorem claim_C7_witness :
    (0 < (1 : ℚ) / 2) ∧ ((1 : ℚ) / 2 < 1) ∧ (0 < (9 : ℚ) / 10)
      ∧ ((9 : ℚ) / 10 < 1) ∧ ((1 : ℚ) / 2 ≤ 9 / 10)
      ∧ (0 < ([fun _ => 0] : List (String → ℚ)).length)
      ∧ (0 < ([("o", Expr.param "b")] : List (String × Expr ℚ)).length)
      ∧ (cellOf (confidenceIntervals (fun x => x) (fun x => x)
            [("o", Expr.param "b")] [fun _ => 0, fun _ => 1] [fun _ => 0]
            (9 / 10)).2 0 0
          - cellOf (confidenceIntervals (fun x => x) (fun x => x)
            [("o", Expr.param "b")] [fun _ => 0, fun _ => 1] [fun _ => 0]
            (9 / 10)).1 0 0
        ≤ cellOf (confidenceIntervals (fun x => x) (fun x => x)
            [("o", Expr.param "b")] [fun _ => 0, fun _ => 1] [fun _ => 0]
            (1 / 2)).2 0 0
          - cellOf (confidenceIntervals (fun x => x) (fun x => x)
            [("o", Expr.param "b")] [fun _ => 0, fun _ => 1] [fun _ => 0]
            (1 / 2)).1 0 0) :=
  ⟨by norm_num, by norm_num, by norm_num, by norm_num, by norm_num, by simp,
    by simp,
    claim_C7 (fun x => x) (fun x => x) [("o", Expr.param "b")]
      [fun _ => 0, fun _ => 1] [fun _ => 0] (1 / 2) (9 / 10) 0 0
      (by norm_num) (by norm_num) (by norm_num) (by norm_num) (by norm_num)
      (by simp) (by simp)⟩

theorem quantile_pair_desc {a b p : ℚ} (hab : a < b) (hp : 0 ≤ p)
    (hp1 : p < 1) : quantile [b, a] p = a + p * (b - a) := by
  have hsort : sortedOf [b, a] = [a, b] := by
    simp only [sortedOf, List.insertionSort, List.orderedInsert]
    rw [if_neg (not_le.mpr hab)]
  have hfl : ⌊p * (((
      [b, a] : List ℚ).length : ℚ) - 1)⌋ = 0 := by
    simp only [List.length_cons, List.length_nil]
    rw [show ((2 : ℕ) : ℚ) - 1 = 1 by norm_num, mul_one]
    exact Int.floor_eq_zero_iff.mpr ⟨hp, hp1⟩
  unfold quantile interpAt
  rw [if_neg (by simp : ([b, a] : List ℚ) ≠ []), hfl]
  simp only [Int.toNat_zero, hsort, List.length_cons, List.length_nil]
  rw [if_pos (by norm_num)]
  rw [show (([a, b] : List ℚ)).getD 0 0 = a from rfl,
    show (([a, b] : List ℚ)).getD (0 + 1) 0 = b from rfl]
  push_cast
  ring

theorem zipWith_map_same (l : List (List ℚ)) (f g : List ℚ → ℚ) :
    List.zipWith (· * ·) (l.map f) (l.map g) = l.map (fun x => f x * g x) := by
  induction l with
  | nil => rfl
  | cons a t ih => simp [ih]

theorem sum_map_div (l : List ℚ) (c : ℚ) :
    (l.map (fun t => t / c)).sum = l.sum / c := by
  induction l with
  | nil => simp
  | cons a t ih => simp [ih, add_div]

/-- Claim C3, counterexample: with outputs `weight = 1` and
`rev = b · x`, rows `x ∈ {1, −1}`, draws `b ∈ {0, 1}`, and α = 0.9, the
computed left revenue bound is −1/10, while reducing each draw's table to
the scalar `Σ_rows rev·weight` (which is 0 for both draws) and taking the
`α/2` quantile across the draws gives 0: the code's bound is NOT the
aggregate-then-bound value. -/
theorem claim_C3_counterexample :
    revenuesLeft (fun x => x) (fun x => x)
        [("weight", Expr.const 1),
          ("rev", Expr.mul (Expr.param "b") (Expr.var "x"))]
        [fun _ => 0, fun _ => 1] [fun _ => 1, fun _ => -1] (9 / 10) 1 0
      ≠ revenuesLeftAggFirst (fun x => x) (fun x => x)
        [("weight", Expr.const 1),
          ("rev", Expr.mul (Expr.param "b") (Expr.var "x"))]
        [fun _ => 0, fun _ => 1] [fun _ => 1, fun _ => -1] (9 / 10) 1 0 := by
  have hcv01 : cellValues (fun x => x) (fun x => x)
      [("weight", Expr.const 1),
        ("rev", Expr.mul (Expr.param "b") (Expr.var "x"))]
      [fun _ => 0, fun _ => 1] [fun _ => 1, fun _ => -1] 0 1 =
      [(0 : ℚ) * 1, (1 : ℚ) * 1] := rfl
  have hcv11 : cellValues (fun x => x) (fun x => x)
      [("weight", Expr.const 1),
        ("rev", Expr.mul (Expr.param "b") (Expr.var "x"))]
      [fun _ => 0, fun _ => 1] [fun _ => 1, fun _ => -1] 1 1 =
      [(0 : ℚ) * (-1), (1 : ℚ) * (-1)] := rfl
  norm_num at hcv01 hcv11
  have hq00 : quantile (cellValues (fun x => x) (fun x => x)
      [("weight", Expr.const 1),
        ("rev", Expr.mul (Expr.param "b") (Expr.var "x"))]
      [fun _ => 0, fun _ => 1] [fun _ => 1, fun _ => -1] 0 0) (9 / 10 / 2) =
      1 := by
    rw [show cellValues (fun x => x) (fun x => x)
        [("weight", Expr.const 1),
          ("rev", Expr.mul (Expr.param "b") (Expr.var "x"))]
        [fun _ => 0, fun _ => 1] [fun _ => 1, fun _ => -1] 0 0 =
        [(1 : ℚ), 1] from rfl]
    exact quantile_of_all_eq (by simp) (by simp) _
  have hq10 : quantile (cellValues (fun x => x) (fun x => x)
      [("weight", Expr.const 1),
        ("rev", Expr.mul (Expr.param "b") (Expr.var "x"))]
      [fun _ => 0, fun _ => 1] [fun _ => 1, fun _ => -1] 1 0) (9 / 10 / 2) =
      1 := by
    rw [show cellValues (fun x => x) (fun x => x)
        [("weight", Expr.const 1),
          ("rev", Expr.mul (Expr.param "b") (Expr.var "x"))]
        [fun _ => 0, fun _ => 1] [fun _ => 1, fun _ => -1] 1 0 =
        [(1 : ℚ), 1] from rfl]
    exact quantile_of_all_eq (by simp) (by simp) _
  have hq01 : quantile (cellValues (fun x => x) (fun x => x)
      [("weight", Expr.const 1),
        ("rev", Expr.mul (Expr.param "b") (Expr.var "x"))]
      [fun _ => 0, fun _ => 1] [fun _ => 1, fun _ => -1] 0 1) (9 / 10 / 2) =
      9 / 20 := by
    rw [hcv01, quantile_pair (by norm_num : (0 : ℚ) ≤ 1) (by norm_num)
      (by norm_num)]
    norm_num
  have hq11 : quantile (cellValues (fun x => x) (fun x => x)
      [("weight", Expr.const 1),
        ("rev", Expr.mul (Expr.param "b") (Expr.var "x"))]
      [fun _ => 0, fun _ => 1] [fun _ => 1, fun _ => -1] 1 1) (9 / 10 / 2) =
      -11 / 20 := by
    rw [hcv11, quantile_pair_desc (by norm_num : (-1 : ℚ) < 0) (by norm_num)
      (by norm_num)]
    norm_num
  have hleft : revenuesLeft (fun x => x) (fun x => x)
      [("weight", Expr.const 1),
        ("rev", Expr.mul (Expr.param "b") (Expr.var "x"))]
      [fun _ => 0, fun _ => 1] [fun _ => 1, fun _ => -1] (9 / 10) 1 0 =
      -1 / 10 := by
    unfold revenuesLeft confidenceIntervals
    rw [show ([fun _ => 1, fun _ => -1] : List (String → ℚ)).length = 2 from
      rfl, show List.range 2 = [0, 1] from rfl]
    simp only [List.map_cons, List.map_nil, List.sum_cons, List.sum_nil]
    rw [show ([("weight", Expr.const 1),
        ("rev", Expr.mul (Expr.param "b") (Expr.var "x"))] :
        List (String × Expr ℚ)).length = 2 from rfl,
      show List.range 2 = [0, 1] from rfl]
    simp only [List.map_cons, List.map_nil]
    simp only [List.getD, List.getElem?_cons_zero, List.getElem?_cons_succ,
      Option.getD_some]
    rw [hq00, hq10, hq01, hq11]
    norm_num
  have hsums : (([fun _ => 0, fun _ => 1] : List (String → ℚ)).map (fun d =>
      ((run (fun x => x) (fun x => x)
        [("weight", Expr.const 1),
          ("rev", Expr.mul (Expr.param "b") (Expr.var "x"))] d
        [fun _ => 1, fun _ => -1]).map
          (fun row => row.getD 1 0 * row.getD 0 0)).sum)) =
      [(0 : ℚ) * 1 * 1 + ((0 : ℚ) * (-1) * 1 + 0),
        (1 : ℚ) * 1 * 1 + ((1 : ℚ) * (-1) * 1 + 0)] := rfl
  have hagg : revenuesLeftAggFirst (fun x => x) (fun x => x)
      [("weight", Expr.const 1),
        ("rev", Expr.mul (Expr.param "b") (Expr.var "x"))]
      [fun _ => 0, fun _ => 1] [fun _ => 1, fun _ => -1] (9 / 10) 1 0 = 0 := by
    unfold revenuesLeftAggFirst
    rw [hsums]
    norm_num
    exact quantile_of_all_eq (by simp) (by simp) _
  rw [hleft, hagg]
  norm_num

/-- Claim C3 (amended): the left bounds that `02nestedSimulation.py`
computes for revenues and market shares are BOUND-THEN-AGGREGATE values:
the revenue bound is the sum over rows of the product of the per-cell
`α/2` quantiles of the revenue and weight columns, and the market-share
bound is the corresponding mean — not the quantile of the per-draw scalar
aggregates (which, per the counterexample, differs). -/
theorem claim_C3 (fexp flog : ℚ → ℚ) (spec : List (String × Expr ℚ))
    (draws rows : List (String → ℚ)) (α : ℚ) (cRev cW cP : ℕ)
    (hRev : cRev < spec.length) (hW : cW < spec.length)
    (hP : cP < spec.length) :
    revenuesLeft fexp flog spec draws rows α cRev cW =
        ((List.range rows.length).map (fun r =>
          quantile (cellValues fexp flog spec draws rows r cRev) (α / 2) *
            quantile (cellValues fexp flog spec draws rows r cW) (α / 2))).sum
      ∧ marketShareLeft fexp flog spec draws rows α cP cW =
        ((List.range rows.length).map (fun r =>
          quantile (cellValues fexp flog spec draws rows r cW) (α / 2) *
            quantile (cellValues fexp flog spec draws rows r cP) (α / 2))).sum
          / (rows.length : ℚ) := by
  constructor
  · unfold revenuesLeft confidenceIntervals
    rw [List.map_map]
    refine congrArg List.sum (List.map_congr_left ?_)
    intro r hrm
    simp only [Function.comp_apply]
    rw [getD_map_range _ hRev 0, getD_map_range _ hW 0]
  · unfold marketShareLeft marketShareOf
    rw [zipWith_map_same]
    have hlen : ((confidenceIntervals fexp flog spec draws rows α).1.map
        (fun x => x.getD cW 0 * x.getD cP 0)).length = rows.length := by
      rw [List.length_map]
      unfold confidenceIntervals
      rw [List.length_map, List.length_range]
    rw [hlen]
    refine congrArg (fun t => t / (rows.length : ℚ)) ?_
    refine congrArg List.sum ?_
    unfold confidenceIntervals
    rw [List.map_map]
    refine List.map_congr_left ?_
    intro r hrm
    simp only [Function.comp_apply]
    rw [getD_map_range _ hW 0, getD_map_range _ hP 0]

/-- Witness for C3: the concrete two-output, two-draw, two-row instance. -/
theorem claim_C3_witness :
    ((1 : ℕ) < 2) ∧ ((0 : ℕ) < 2)
      ∧ (revenuesLeft (fun x => x) (fun x => x)
          [("weight", Expr.const 1),
            ("rev", Expr.mul (Expr.param "b") (Expr.var "x"))]
          [fun _ => 0, fun _ => 1] [fun _ => 1, fun _ => -1] (9 / 10) 1 0 =
          ((List.range ([fun _ => 1, fun _ => -1] :
              List (String → ℚ)).length).map (fun r =>
            quantile (cellValues (fun x => x) (fun x => x)
              [("weight", Expr.const 1),
                ("rev", Expr.mul (Expr.param "b") (Expr.var "x"))]
              [fun _ => 0, fun _ => 1] [fun _ => 1, fun _ => -1] r 1)
              (9 / 10 / 2) *
              quantile (cellValues (fun x => x) (fun x => x)
                [("weight", Expr.const 1),
                  ("rev", Expr.mul (Expr.param "b") (Expr.var "x"))]
                [fun _ => 0, fun _ => 1] [fun _ => 1, fun _ => -1] r 0)
                (9 / 10 / 2))).sum
        ∧ marketShareLeft (fun x => x) (fun x => x)
            [("weight", Expr.const 1),
              ("rev", Expr.mul (Expr.param "b") (Expr.var "x"))]
            [fun _ => 0, fun _ => 1] [fun _ => 1, fun _ => -1] (9 / 10) 1 0 =
          ((List.range ([fun _ => 1, fun _ => -1] :
              List (String → ℚ)).length).map (fun r =>
            quantile (cellValues (fun x => x) (fun x => x)
              [("weight", Expr.const 1),
                ("rev", Expr.mul (Expr.param "b") (Expr.var "x"))]
              [fun _ => 0, fun _ => 1] [fun _ => 1, fun _ => -1] r 0)
              (9 / 10 / 2) *
              quantile (cellValues (fun x => x) (fun x => x)
                [("weight", Expr.const 1),
                  ("rev", Expr.mul (Expr.param "b") (Expr.var "x"))]
                [fun _ => 0, fun _ => 1] [fun _ => 1, fun _ => -1] r 1)
                (9 / 10 / 2))).sum
            / (([fun _ => 1, fun _ => -1] : List (String → ℚ)).length : ℚ)) :=
  ⟨by norm_num, by norm_num,
    claim_C3 (fun x => x) (fun x => x)
      [("weight", Expr.const 1),
        ("rev", Expr.mul (Expr.param "b") (Expr.var "x"))]
      [fun _ => 0, fun _ => 1] [fun _ => 1, fun _ => -1] (9 / 10) 1 0 1
      (by norm_num) (by norm_num) (by norm_num)⟩

/-- Claim C8, counterexample: with rows of weight 1, probabilities 1 and
1/2, and disaggregate elasticities 1 and 0, the aggregate elasticity
computed by `03nestedElasticities.py` is `(1·1·1 + 1·(1/2)·0)/(1 + 1/2) =
2/3`, while the WeightedMean of the elasticity column with the row weights
as the only weighting is `(1·1 + 1·0)/2 = 1/2`: the aggregate elasticity is
NOT the plain weighted mean of the disaggregate elasticities. -/
theorem claim_C8_counterexample :
    aggElasOf [1, 1] [1, 1 / 2] [1, 0] ≠ weightedMean [1, 1] [1, 0] := by
  norm_num [aggElasOf, weightedMean]

/-- Claim C8 (amended): the market-share aggregation of
`02nestedSimulation.py` is the spec's `WeightedMean` (Σ weight·value / N)
applied to the probability column; the aggregate elasticity of
`03nestedElasticities.py`, however, is the probability-AND-weight weighted
mean `Σ_r (w_r·P_r·e_r) / Σ_r (w_r·P_r)` — the weighted probabilities, not
the row weights alone, are the weighting, and the normalization is by their
total, not by N. -/
theorem claim_C8 (w P e : List ℚ) (hwP : w.length = P.length) :
    marketShareOf w P = weightedMean w P
      ∧ aggElasOf w P e =
        (List.zipWith (· * ·) (List.zipWith (· * ·) w P) e).sum /
          (List.zipWith (· * ·) w P).sum := by
  constructor
  · unfold marketShareOf weightedMean
    rw [List.length_zipWith, hwP, min_self]
  · unfold aggElasOf
    rw [sum_map_div]

/-- Witness for C8: two rows with matching column lengths. -/
theorem claim_C8_witness :
    (([1, 1] : List ℚ).length = ([1, 1 / 2] : List ℚ).length)
      ∧ (marketShareOf [1, 1] [1, 1 / 2] = weightedMean [1, 1] [1, 1 / 2]
        ∧ aggElasOf [1, 1] [1, 1 / 2] [1, 0] =
          (List.zipWith (· * ·) (List.zipWith (· * ·) [1, 1] [1, 1 / 2])
            [1, 0]).sum / (List.zipWith (· * ·) [1, 1] [1, 1 / 2]).sum) :=
  ⟨rfl, claim_C8 [1, 1] [1, 1 / 2] [1, 0] rfl⟩

/-- Claim C9: the normalized weight is
`Weight · numberOfRows / (Σ_rows Weight)`; for every dataset with nonzero
total weight the normalized weights sum exactly to the number of rows, so
their mean is 1. -/
theorem claim_C9 (fexp flog : ℚ → ℚ) (p : String → ℚ)
    (rows : List (String → ℚ))
    (hsw : (rows.map (fun r => r "Weight")).sum ≠ 0) :
    (rows.map (fun r =>
        eval fexp flog p r (normalizedWeightExpr ℚ (rows.length : ℚ)
          ((rows.map (fun r => r "Weight")).sum)))).sum = (rows.length : ℚ)
      ∧ (rows.map (fun r =>
          eval fexp flog p r (normalizedWeightExpr ℚ (rows.length : ℚ)
            ((rows.map (fun r => r "Weight")).sum)))).sum
          / (rows.length : ℚ) = 1 := by
  have hrows : rows ≠ [] := by
    intro h
    rw [h] at hsw
    simp at hsw
  have hN : ((rows.length : ℚ)) ≠ 0 := by
    have := List.length_pos.mpr hrows
    positivity
  have hmain : (rows.map (fun r =>
      eval fexp flog p r (normalizedWeightExpr ℚ (rows.length : ℚ)
        ((rows.map (fun r => r "Weight")).sum)))).sum = (rows.length : ℚ) := by
    rw [show rows.map (fun r =>
        eval fexp flog p r (normalizedWeightExpr ℚ (rows.length : ℚ)
          ((rows.map (fun r => r "Weight")).sum))) =
        rows.map (fun r => r "Weight" *
          ((rows.length : ℚ) / (rows.map (fun r => r "Weight")).sum)) from
      List.map_congr_left (by
        intro r hr
        simp only [eval, normalizedWeightExpr]
        rw [mul_div_assoc])]
    rw [List.sum_map_mul_right]
    field_simp
  exact ⟨hmain, by rw [hmain, div_self hN]⟩

/-- Witness for C9: a one-row dataset of weight 2. -/
theorem claim_C9_witness :
    ((([fun _ => 2] : List (String → ℚ)).map (fun r => r "Weight")).sum ≠ 0)
      ∧ ((([fun _ => 2] : List (String → ℚ)).map (fun r =>
          eval (fun x => x) (fun x => x) (fun _ => 0) r
            (normalizedWeightExpr ℚ
              ((([fun _ => 2] : List (String → ℚ)).length : ℚ))
              ((([fun _ => 2] : List (String → ℚ)).map
                (fun r => r "Weight")).sum)))).sum =
          (([fun _ => 2] : List (String → ℚ)).length : ℚ)
        ∧ (([fun _ => 2] : List (String → ℚ)).map (fun r =>
            eval (fun x => x) (fun x => x) (fun _ => 0) r
              (normalizedWeightExpr ℚ
                ((([fun _ => 2] : List (String → ℚ)).length : ℚ))
                ((([fun _ => 2] : List (String → ℚ)).map
                  (fun r => r "Weight")).sum)))).sum
            / (([fun _ => 2] : List (String → ℚ)).length : ℚ) = 1) :=
  ⟨by norm_num, claim_C9 (fun x => x) (fun x => x) (fun _ => 0)
    [fun _ => 2] (by norm_num)⟩

/-- Claim C10: for a simulation output whose expression contains no
parameter reference, every draw's table cell equals the point-estimate
cell, and both the lower and upper per-cell confidence bounds equal the
point value, for every confidence level and every non-empty draw set. -/
theorem claim_C10 (fexp flog : ℚ → ℚ) (spec : List (String × Expr ℚ))
    (draws rows : List (String → ℚ)) (α : ℚ) (p₀ : String → ℚ) (r c : ℕ)
    (hpf : hasParam (spec.getD c ("", Expr.const 0)).2 = false)
    (hd : draws ≠ []) (hr : r < rows.length) (hc : c < spec.length) :
    (∀ d ∈ draws, cellOf (run fexp flog spec d rows) r c =
        cellOf (run fexp flog spec p₀ rows) r c)
      ∧ cellOf (confidenceIntervals fexp flog spec draws rows α).1 r c =
        cellOf (run fexp flog spec p₀ rows) r c
      ∧ cellOf (confidenceIntervals fexp flog spec draws rows α).2 r c =
        cellOf (run fexp flog spec p₀ rows) r c := by
  have hcell : ∀ d : String → ℚ, cellOf (run fexp flog spec d rows) r c =
      cellOf (run fexp flog spec p₀ rows) r c := by
    intro d
    rw [run_cell fexp flog spec d rows hr hc,
      run_cell fexp flog spec p₀ rows hr hc]
    exact eval_of_hasParam_false fexp flog hpf d p₀ _
  have hall : ∀ x ∈ cellValues fexp flog spec draws rows r c,
      x = cellOf (run fexp flog spec p₀ rows) r c := by
    intro x hx
    unfold cellValues at hx
    obtain ⟨d, _, rfl⟩ := List.mem_map.mp hx
    exact hcell d
  have hne : cellValues fexp flog spec draws rows r c ≠ [] := by
    unfold cellValues
    simpa using hd
  refine ⟨fun d _ => hcell d, ?_, ?_⟩
  · rw [ci_lower_cell fexp flog spec draws rows α hr hc]
    exact quantile_of_all_eq hne hall _
  · rw [ci_upper_cell fexp flog spec draws rows α hr hc]
    exact quantile_of_all_eq hne hall _

/-- Witness for C10: the parameter-free `weight` output of the simulation
spec, one draw, one row. -/
theorem claim_C10_witness :
    (hasParam (([("weight", normalizedWeightExpr ℚ 1 1)] :
          List (String × Expr ℚ)).getD 0 ("", Expr.const 0)).2 = false)
      ∧ (([fun _ => 5] : List (String → ℚ)) ≠ [])
      ∧ ((∀ d ∈ ([fun _ => 5] : List (String → ℚ)),
          cellOf (run (fun x => x) (fun x => x)
            [("weight", normalizedWeightExpr ℚ 1 1)] d [fun _ => 7]) 0 0 =
          cellOf (run (fun x => x) (fun x => x)
            [("weight", normalizedWeightExpr ℚ 1 1)] (fun _ => 0)
            [fun _ => 7]) 0 0)
        ∧ cellOf (confidenceIntervals (fun x => x) (fun x => x)
            [("weight", normalizedWeightExpr ℚ 1 1)] [fun _ => 5]
            [fun _ => 7] (9 / 10)).1 0 0 =
          cellOf (run (fun x => x) (fun x => x)
            [("weight", normalizedWeightExpr ℚ 1 1)] (fun _ => 0)
            [fun _ => 7]) 0 0
        ∧ cellOf (confidenceIntervals (fun x => x) (fun x => x)
            [("weight", normalizedWeightExpr ℚ 1 1)] [fun _ => 5]
            [fun _ => 7] (9 / 10)).2 0 0 =
          cellOf (run (fun x => x) (fun x => x)
            [("weight", normalizedWeightExpr ℚ 1 1)] (fun _ => 0)
            [fun _ => 7]) 0 0) :=
  ⟨rfl, by simp,
    claim_C10 (fun x => x) (fun x => x)
      [("weight", normalizedWeightExpr ℚ 1 1)] [fun _ => 5] [fun _ => 7]
      (9 / 10) (fun _ => 0) 0 0 rfl (by simp) (by simp) (by simp)⟩

end Biogeme
